import Mathlib

/-!
Verification of the GoFinance aggregation core (sector_analyzer.py and
stock_analyzer.py) against its natural-language specification.

Embedding conventions.  Python floats are modelled as exact rationals.  Where
the code's NaN behaviour is itself in question (the pandas column statistics
and rankings of sector_analyzer.py) the value domain is `MFloat`, a rational
with an explicit NaN adjoined.  A pandas standard deviation is kept
symbolically as `StdVal.sqrtOf v` — the nonnegative square root of the sample
variance `v` — so that "0 versus NaN" questions are exact.  Python's
`float(...)` literal parser is modelled for finite decimal literals; the
special literals "nan"/"inf", and underscore digit grouping, are outside the
inputs of every claim and are treated as parse failures.

pandas semantics embedded (pandas 1.4+ / 2.x, pandas/core/algorithms.py):
`Series.mean` and `Series.std` skip NaN, `std` uses the N-1 denominator and
yields NaN when fewer than two non-NaN values remain;
`DataFrame.nlargest(n, c)` / `nsmallest(n, c)` with the default
`keep='first'` return the rows ordered by column `c` (descending resp.
ascending, ties in original row order), with the NaN-keyed rows appended at
the end in original order, the whole truncated to `n` rows (`SelectNSeries`
ends with `concat([dropped.iloc[inds], nan_index]).iloc[:findex]`, and its
slow path `n >= len` sorts with `na_position='last'`);
`pd.DataFrame([])` has no columns, so the first column access
`df['market_cap']` in `_analyze_sector` raises on an empty batch — that
failure is modelled as `AnalyzeError.emptyBatchError`.

Python's `sorted` (with or without `reverse=True`) is a stable sort and is
modelled by a stable insertion sort over the same boolean comparator; the two
agree whenever the comparator is a strict weak order, which holds on all
non-NaN keys.
-/

/-- A Python float that is either NaN or an exact rational value. -/
inductive MFloat where
  | nan : MFloat
  | val : ℚ → MFloat
deriving DecidableEq

def MFloat.isNan : MFloat → Bool
  | .nan => true
  | .val _ => false

def MFloat.toQ : MFloat → Option ℚ
  | .nan => none
  | .val q => some q

/-- Float comparison `<` as in Python/NumPy: any comparison against NaN is false. -/
def mfLt : MFloat → MFloat → Bool
  | MFloat.val a, MFloat.val b => decide (a < b)
  | _, _ => false

/-- The non-NaN entries of a column, in order (what pandas keeps under `skipna`). -/
def nonNanVals (xs : List MFloat) : List ℚ :=
  xs.filterMap MFloat.toQ

/-- pandas `Series.mean()`: the mean of the non-NaN entries, NaN when there are none. -/
def mfMean (xs : List MFloat) : MFloat :=
  let ys := nonNanVals xs
  if ys.isEmpty then MFloat.nan else MFloat.val (ys.sum / (ys.length : ℚ))

/-- A pandas standard deviation: NaN, or the square root of a sample variance,
kept symbolically so that equalities with 0 and NaN are exact. -/
inductive StdVal where
  | nan : StdVal
  | sqrtOf : ℚ → StdVal
deriving DecidableEq

/-- pandas `Series.std()` (default `ddof=1`, `skipna=True`): NaN when fewer than
two non-NaN entries remain, otherwise the square root of the sample variance
with the N-1 denominator. -/
def mfStd (xs : List MFloat) : StdVal :=
  let ys := nonNanVals xs
  if ys.length ≤ 1 then StdVal.nan
  else
    let m : ℚ := ys.sum / (ys.length : ℚ)
    StdVal.sqrtOf ((ys.map (fun y => (y - m) ^ 2)).sum / ((ys.length : ℚ) - 1))

/-- Insert `x` into `l`, passing over exactly the elements `y` with `lt x y`.
Inserting every element of a batch from last to first with this function is a
stable descending sort for the strict comparator `lt`. -/
def insertTop {α : Type*} (lt : α → α → Bool) (x : α) : List α → List α
  | [] => [x]
  | y :: ys => if lt x y then y :: insertTop lt x ys else x :: y :: ys

/-- Stable sort placing the maximal elements of `lt` first: ties and
incomparable elements keep their original relative order (the extensional
behaviour of Python's `sorted(..., reverse=True)` and of pandas sorting with
`kind='mergesort'` for a strict-weak-order comparator). -/
def sortTop {α : Type*} (lt : α → α → Bool) : List α → List α
  | [] => []
  | x :: xs => insertTop lt x (sortTop lt xs)

/-- pandas `DataFrame.nlargest n` by the column `key`, default `keep='first'`:
the non-NaN rows stably sorted descending, then the NaN rows in input order,
truncated to `n` rows. -/
def nlargestBy {α : Type*} (key : α → MFloat) (n : Nat) (l : List α) : List α :=
  (sortTop (fun a b => mfLt (key a) (key b)) (l.filter (fun a => !(key a).isNan))
    ++ l.filter (fun a => (key a).isNan)).take n

/-- pandas `DataFrame.nsmallest n` by the column `key`, default `keep='first'`:
the non-NaN rows stably sorted ascending, then the NaN rows in input order,
truncated to `n` rows. -/
def nsmallestBy {α : Type*} (key : α → MFloat) (n : Nat) (l : List α) : List α :=
  (sortTop (fun a b => mfLt (key b) (key a)) (l.filter (fun a => !(key a).isNan))
    ++ l.filter (fun a => (key a).isNan)).take n

/-- The whitespace characters stripped by Python's `float`. -/
def pyWs (c : Char) : Bool :=
  c == ' ' || c == '\t' || c == '\n' || c == '\r' || c == '\x0b' || c == '\x0c'

def stripChars (cs : List Char) : List Char :=
  ((cs.dropWhile pyWs).reverse.dropWhile pyWs).reverse

/-- Value of a string of decimal digits. -/
def digitsVal (cs : List Char) : Nat :=
  cs.foldl (fun a c => 10 * a + (c.toNat - 48)) 0

def allDigits (cs : List Char) : Bool :=
  cs.all Char.isDigit

/-- Split at the first character satisfying `p`, if any, dropping it. -/
def splitAtChar (p : Char → Bool) : List Char → List Char × Option (List Char)
  | [] => ([], none)
  | c :: cs =>
    if p c then ([], some cs)
    else
      let r := splitAtChar p cs
      (c :: r.1, r.2)

/-- Exponent part of a float literal: an optional sign and a nonempty digit run. -/
def parseExpPart (cs : List Char) : Option Int :=
  match cs with
  | '+' :: ds => if !ds.isEmpty && allDigits ds then some ((digitsVal ds : Int)) else none
  | '-' :: ds => if !ds.isEmpty && allDigits ds then some (-(digitsVal ds : Int)) else none
  | ds => if !ds.isEmpty && allDigits ds then some ((digitsVal ds : Int)) else none

/-- Mantissa of a float literal: digits with at most one point and at least one
digit overall ("1", "1.5", "1.", ".5"). -/
def parseMantissa (cs : List Char) : Option ℚ :=
  match splitAtChar (fun c => c == '.') cs with
  | (a, none) => if !a.isEmpty && allDigits a then some ((digitsVal a : ℚ)) else none
  | (a, some b) =>
    if (!a.isEmpty || !b.isEmpty) && allDigits a && allDigits b then
      some ((digitsVal a : ℚ) + (digitsVal b : ℚ) / (10 : ℚ) ^ b.length)
    else none

/-- Unsigned part of a float literal: mantissa with an optional `e`/`E` exponent. -/
def pyFloatBody (cs : List Char) : Option ℚ :=
  match splitAtChar (fun d => d == 'e' || d == 'E') cs with
  | (m, none) => parseMantissa m
  | (m, some e) =>
    match parseMantissa m, parseExpPart e with
    | some v, some ex => some (v * (10 : ℚ) ^ ex)
    | _, _ => none

/-- Python `float(...)` on a finite decimal literal: optional surrounding
whitespace, optional sign, mantissa, optional `e`/`E` exponent.  `none` models
the `ValueError` of an unparsable string. -/
def pyFloatChars (cs : List Char) : Option ℚ :=
  match stripChars cs with
  | [] => none
  | '-' :: rest => (pyFloatBody rest).map (fun v => -v)
  | '+' :: rest => pyFloatBody rest
  | cs' => pyFloatBody cs'

def pyFloat (s : String) : Option ℚ :=
  pyFloatChars s.toList

namespace SectorAnalyzer

/-- The per-stock input record of sector_analyzer.py (dataclass `StockData`). -/
structure StockData where
  symbol : String
  name : String
  price : MFloat
  change : MFloat
  change_percentage : MFloat
  volume : Int
  market_cap : String
  sector : String
  pe_ratio : MFloat
  timestamp : String
deriving DecidableEq

/-- A row of `df[['symbol', 'name', 'change_percentage', 'volume']].to_dict('records')`. -/
structure Performer where
  symbol : String
  name : String
  change_percentage : MFloat
  volume : Int
deriving DecidableEq

/-- The dataclass `SectorData` of sector_analyzer.py. -/
structure SectorData where
  sector : String
  performance : MFloat
  volume : Int
  market_cap : ℚ
  top_performers : List Performer
  worst_performers : List Performer
  average_pe : MFloat
  volatility : StdVal
  timestamp : String
deriving DecidableEq

/-- The failure of `_analyze_sector` on an empty batch (the `KeyError` raised by
the first column access on the column-less empty frame); the spec names this
failure `EmptyBatchError`. -/
inductive AnalyzeError where
  | emptyBatchError : AnalyzeError
deriving DecidableEq

/-- The multiplier dictionary `{'T': 1e12, 'B': 1e9, 'M': 1e6}.get(last, 1)`
of `_convert_market_cap`, keyed by the last character of the input. -/
def capMultiplier (c : Option Char) : ℚ :=
  match c with
  | some 'T' => (10 : ℚ) ^ (12 : ℕ)
  | some 'B' => (10 : ℚ) ^ (9 : ℕ)
  | some 'M' => (10 : ℚ) ^ (6 : ℕ)
  | _ => 1

/-- `SectorAnalyzer._convert_market_cap` (sector_analyzer.py lines 96-106):
parse `market_cap[:-1]` as a float, scale by the multiplier looked up for the
last character with default 1, and return 0.0 on any parse failure. -/
def convertMarketCap (market_cap : String) : ℚ :=
  match pyFloatChars market_cap.toList.dropLast with
  | none => 0
  | some value => value * capMultiplier market_cap.toList.getLast?

def toPerformer (s : StockData) : Performer :=
  { symbol := s.symbol, name := s.name,
    change_percentage := s.change_percentage, volume := s.volume }

/-- `SectorAnalyzer._get_top_performers` (lines 108-111):
`df.nlargest(n, 'change_percentage')` projected to the four report fields. -/
def getTopPerformers (stocks : List StockData) (n : Nat) : List Performer :=
  (nlargestBy (fun s => s.change_percentage) n stocks).map toPerformer

/-- `SectorAnalyzer._get_worst_performers` (lines 113-116):
`df.nsmallest(n, 'change_percentage')` projected to the four report fields. -/
def getWorstPerformers (stocks : List StockData) (n : Nat) : List Performer :=
  (nsmallestBy (fun s => s.change_percentage) n stocks).map toPerformer

/-- `SectorAnalyzer._analyze_sector` (lines 79-94).  The `datetime.now()`
timestamp is passed in as `now`.  On an empty batch the empty frame has no
columns and the first column access raises; otherwise every field is a total
column reduction. -/
def analyzeSector (now : String) (sectorName : String) (stocks : List StockData) :
    Except AnalyzeError SectorData :=
  if stocks.isEmpty then Except.error AnalyzeError.emptyBatchError
  else Except.ok
    { sector := sectorName
      performance := mfMean (stocks.map (fun s => s.change_percentage))
      volume := (stocks.map (fun s => s.volume)).sum
      market_cap := (stocks.map (fun s => convertMarketCap s.market_cap)).sum
      top_performers := getTopPerformers stocks 5
      worst_performers := getWorstPerformers stocks 5
      average_pe := mfMean (stocks.map (fun s => s.pe_ratio))
      volatility := mfStd (stocks.map (fun s => s.change_percentage))
      timestamp := now }

/-- The sector ordering shared by `_prepare_analysis_content` (lines 149-156)
and `send_email` (lines 196-200):
`sorted(sector_data.items(), key=lambda x: x[1].performance, reverse=True)`,
applied to the mapping's items in insertion order. -/
def sortedSectorItems (items : List (String × SectorData)) : List (String × SectorData) :=
  sortTop (fun a b => mfLt a.2.performance b.2.performance) items

end SectorAnalyzer

namespace StockAnalyzer

/-- The per-stock input record of stock_analyzer.py (dataclass `StockData`).
No claim concerns NaN fields of this record, so its floats are plain rationals. -/
structure StockData where
  symbol : String
  name : String
  price : ℚ
  change : ℚ
  change_percentage : ℚ
  volume : Int
  market_cap : String
  timestamp : String
  category : String
deriving DecidableEq

/-- An entry of the `top_movers` list built in `_prepare_category_data`. -/
structure TopMover where
  symbol : String
  name : String
  change_pct : ℚ
  volume : Int
deriving DecidableEq

/-- The dictionary returned by `_prepare_category_data`: on an empty batch it
holds only the `count` key, so the other three fields are optional. -/
structure CategoryData where
  count : Nat
  avg_change_pct : Option ℚ
  total_volume : Option Int
  top_movers : Option (List TopMover)
deriving DecidableEq

def toTopMover (s : StockData) : TopMover :=
  { symbol := s.symbol, name := s.name,
    change_pct := s.change_percentage, volume := s.volume }

/-- `StockAnalyzer._prepare_category_data` (stock_analyzer.py lines 64-83):
`{"count": 0}` on an empty batch, otherwise count, mean change, total volume
and the first five stocks of
`sorted(stocks, key=lambda x: abs(x.change_percentage), reverse=True)`
projected to the four `top_movers` fields. -/
def prepareCategoryData (stocks : List StockData) : CategoryData :=
  if stocks.isEmpty then
    { count := 0, avg_change_pct := none, total_volume := none, top_movers := none }
  else
    { count := stocks.length
      avg_change_pct := some ((stocks.map (fun s => s.change_percentage)).sum / (stocks.length : ℚ))
      total_volume := some ((stocks.map (fun s => s.volume)).sum)
      top_movers := some
        (((sortTop (fun a b => decide (|a.change_percentage| < |b.change_percentage|))
            stocks).take 5).map toTopMover) }

/-- Python `stocks.get(k, [])` on a dict modelled as its items in insertion order. -/
def dictGet (m : List (String × List StockData)) (k : String) : List StockData :=
  match m.find? (fun p => p.1 == k) with
  | some p => p.2
  | none => []

/-- The category table assembled by `StockAnalyzer.analyze_market_trends`
(stock_analyzer.py lines 39-48): exactly the three fixed categories, in this
order, each read from the input mapping with default `[]`. -/
def analysisData (m : List (String × List StockData)) : List (String × CategoryData) :=
  [("most_active", prepareCategoryData (dictGet m "most_active")),
   ("gainers", prepareCategoryData (dictGet m "gainers")),
   ("losers", prepareCategoryData (dictGet m "losers"))]

end StockAnalyzer

/-! Sample records used as concrete inputs of witnesses and counterexamples. -/

/-- A concrete sector-analyzer stock record with value 2.0 for `change_percentage`. -/
def sampleStock : SectorAnalyzer.StockData :=
  { symbol := "AAPL", name := "Apple", price := MFloat.val 190, change := MFloat.val 4,
    change_percentage := MFloat.val 2, volume := 100, market_cap := "3T",
    sector := "technology", pe_ratio := MFloat.val 30, timestamp := "2024-01-01" }

/-- A concrete sector-analyzer stock record whose `change_percentage` is NaN. -/
def nanStock : SectorAnalyzer.StockData :=
  { symbol := "NANX", name := "NanCo", price := MFloat.val 10, change := MFloat.nan,
    change_percentage := MFloat.nan, volume := 7, market_cap := "1B",
    sector := "technology", pe_ratio := MFloat.nan, timestamp := "2024-01-01" }

/-- A concrete category-analyzer stock record, parametrized by its signed change. -/
def mkCategoryStock (sym : String) (chg : ℚ) : StockAnalyzer.StockData :=
  { symbol := sym, name := sym, price := 10, change := chg, change_percentage := chg,
    volume := 5, market_cap := "1B", timestamp := "2024-01-01", category := "gainers" }

/-- A sector summary with the given name and performance and inert other fields,
used to exercise the report ordering. -/
def mkSectorSummary (nm : String) (perf : MFloat) : SectorAnalyzer.SectorData :=
  { sector := nm, performance := perf, volume := 0, market_cap := 0,
    top_performers := [], worst_performers := [], average_pe := MFloat.nan,
    volatility := StdVal.nan, timestamp := "t" }

/-! General lemmas about the stable sort `sortTop`. -/

theorem insertTop_perm {α : Type*} (lt : α → α → Bool) (x : α) (l : List α) :
    (insertTop lt x l).Perm (x :: l) := by
  induction l with
  | nil => exact List.Perm.refl _
  | cons y ys ih =>
    unfold insertTop
    by_cases h : lt x y = true
    · rw [if_pos h]
      exact (ih.cons y).trans (List.Perm.swap x y ys)
    · rw [if_neg h]

theorem sortTop_perm {α : Type*} (lt : α → α → Bool) (l : List α) :
    (sortTop lt l).Perm l := by
  induction l with
  | nil => exact List.Perm.refl _
  | cons x xs ih => exact (insertTop_perm lt x (sortTop lt xs)).trans (ih.cons x)

theorem sortTop_length {α : Type*} (lt : α → α → Bool) (l : List α) :
    (sortTop lt l).length = l.length :=
  (sortTop_perm lt l).length_eq

theorem insertTop_chain' {α : Type*} {lt : α → α → Bool}
    (hA : ∀ a b, lt a b = true → lt b a = false) (x : α) {l : List α}
    (h : l.Chain' (fun a b => lt a b = false)) :
    (insertTop lt x l).Chain' (fun a b => lt a b = false) := by
  induction l with
  | nil => simp [insertTop]
  | cons y ys ih =>
    unfold insertTop
    by_cases hxy : lt x y = true
    · rw [if_pos hxy]
      rw [List.chain'_cons']
      constructor
      · intro z hz
        cases ys with
        | nil =>
          simp [insertTop] at hz
          subst hz
          exact hA x y hxy
        | cons w ws =>
          unfold insertTop at hz
          by_cases hxw : lt x w = true
          · rw [if_pos hxw] at hz
            simp at hz
            subst hz
            exact (List.chain'_cons.mp h).1
          · rw [if_neg hxw] at hz
            simp at hz
            subst hz
            exact hA x y hxy
      · exact ih h.tail
    · rw [if_neg hxy]
      rw [List.chain'_cons]
      exact ⟨by simpa using hxy, h⟩

theorem sortTop_chain' {α : Type*} {lt : α → α → Bool}
    (hA : ∀ a b, lt a b = true → lt b a = false) (l : List α) :
    (sortTop lt l).Chain' (fun a b => lt a b = false) := by
  induction l with
  | nil => simp [sortTop]
  | cons x xs ih => exact insertTop_chain' hA x ih

theorem filter_insertTop {α : Type*} {lt : α → α → Bool} {p : α → Bool} {x : α}
    (hp : ∀ y, lt x y = true → p x = true → p y = false) (l : List α) :
    (insertTop lt x l).filter p = if p x then x :: l.filter p else l.filter p := by
  induction l with
  | nil =>
    by_cases hpx : p x = true
    · simp [insertTop, List.filter_cons, hpx]
    · simp [insertTop, List.filter_cons, by simpa using hpx]
  | cons y ys ih =>
    unfold insertTop
    by_cases hxy : lt x y = true
    · rw [if_pos hxy]
      by_cases hpx : p x = true
      · have hpy : p y = false := hp y hxy hpx
        simp only [List.filter_cons, hpy, if_pos hpx, ih, Bool.false_eq_true, if_false]
      · have hpx' : p x = false := by simpa using hpx
        simp only [List.filter_cons, hpx', Bool.false_eq_true, if_false, ih]
    · rw [if_neg hxy]
      by_cases hpx : p x = true
      · simp [List.filter_cons, hpx]
      · simp [List.filter_cons, by simpa using hpx]

theorem filter_sortTop {α : Type*} {lt : α → α → Bool} {p : α → Bool}
    (hp : ∀ x y, lt x y = true → p x = true → p y = false) (l : List α) :
    (sortTop lt l).filter p = l.filter p := by
  induction l with
  | nil => rfl
  | cons x xs ih =>
    unfold sortTop
    rw [filter_insertTop (hp x)]
    by_cases hpx : p x = true
    · rw [if_pos hpx, ih, List.filter_cons, if_pos hpx]
    · rw [if_neg hpx, ih, List.filter_cons, if_neg hpx]

theorem chain'_and_of {α : Type*} {P Q : α → α → Prop} {l : List α}
    (h1 : l.Chain' P) (h2 : l.Chain' Q) : l.Chain' (fun a b => P a b ∧ Q a b) := by
  induction l with
  | nil => simp
  | cons x xs ih =>
    cases xs with
    | nil => simp
    | cons y ys =>
      rw [List.chain'_cons] at h1 h2 ⊢
      exact ⟨⟨h1.1, h2.1⟩, ih h1.2 h2.2⟩

theorem chain'_imp_mem {α : Type*} {P Q : α → α → Prop} {l : List α}
    (h : l.Chain' P) (himp : ∀ a b, a ∈ l → b ∈ l → P a b → Q a b) : l.Chain' Q := by
  induction l with
  | nil => simp
  | cons x xs ih =>
    cases xs with
    | nil => simp
    | cons y ys =>
      rw [List.chain'_cons] at h ⊢
      refine ⟨himp x y (by simp) (by simp) h.1, ih h.2 ?_⟩
      intro a b ha hb hab
      exact himp a b (List.mem_cons_of_mem x ha) (List.mem_cons_of_mem x hb) hab

theorem pairwise_of_chain'_trans_mem {α : Type*} {R : α → α → Prop} {l : List α}
    (ht : ∀ a b c, a ∈ l → b ∈ l → c ∈ l → R a b → R b c → R a c)
    (h : l.Chain' R) : l.Pairwise R := by
  induction l with
  | nil => exact List.Pairwise.nil
  | cons x xs ih =>
    cases xs with
    | nil => simp
    | cons y ys =>
      rw [List.chain'_cons] at h
      have hp : (y :: ys).Pairwise R := by
        refine ih ?_ h.2
        intro a b c ha hb hc
        exact ht a b c (List.mem_cons_of_mem x ha) (List.mem_cons_of_mem x hb)
          (List.mem_cons_of_mem x hc)
      rw [List.pairwise_cons]
      refine ⟨?_, hp⟩
      intro z hz
      rcases List.mem_cons.mp hz with hz | hz
      · subst hz
        exact h.1
      · exact ht x y z (by simp) (by simp) (List.mem_cons_of_mem x (by simp [hz]))
          h.1 ((List.pairwise_cons.mp hp).1 z hz)

/-! Lemmas about the NaN-aware comparison. -/

theorem mfLt_asymm {a b : MFloat} (h : mfLt a b = true) : mfLt b a = false := by
  cases a with
  | nan => cases b <;> simp [mfLt] at h
  | val qa =>
    cases b with
    | nan => simp [mfLt] at h
    | val qb =>
      simp only [mfLt, decide_eq_true_eq] at h
      simp only [mfLt, decide_eq_false_iff_not]
      exact asymm h

theorem mfLt_trans {a b c : MFloat} (h1 : mfLt a b = true) (h2 : mfLt b c = true) :
    mfLt a c = true := by
  cases a with
  | nan => simp [mfLt] at h1
  | val qa =>
    cases b with
    | nan => simp [mfLt] at h1
    | val qb =>
      cases c with
      | nan => simp [mfLt] at h2
      | val qc =>
        simp only [mfLt, decide_eq_true_eq] at h1 h2 ⊢
        exact h1.trans h2

theorem mfLt_of_not_lt {a b : MFloat} (ha : a.isNan = false) (hb : b.isNan = false)
    (hne : a ≠ b) (h : mfLt a b = false) : mfLt b a = true := by
  cases a with
  | nan => simp [MFloat.isNan] at ha
  | val qa =>
    cases b with
    | nan => simp [MFloat.isNan] at hb
    | val qb =>
      simp only [mfLt, decide_eq_false_iff_not] at h
      simp only [mfLt, decide_eq_true_eq]
      rcases lt_or_eq_of_le (le_of_not_lt h) with h' | h'
      · exact h'
      · exact absurd (by rw [h']) hne

theorem mfLt_false_trans {a b c : MFloat} (ha : a.isNan = false) (hb : b.isNan = false)
    (hc : c.isNan = false) (h1 : mfLt a b = false) (h2 : mfLt b c = false) :
    mfLt a c = false := by
  cases a with
  | nan => simp [MFloat.isNan] at ha
  | val qa =>
    cases b with
    | nan => simp [MFloat.isNan] at hb
    | val qb =>
      cases c with
      | nan => simp [MFloat.isNan] at hc
      | val qc =>
        simp only [mfLt, decide_eq_false_iff_not] at h1 h2 ⊢
        intro hlt
        exact h1 (lt_of_lt_of_le hlt (le_of_not_lt h2))

/-! Lemmas about the float-literal parser on digit-only strings. -/

theorem isDigit_beq_false {c d : Char} (hc : c.isDigit = true) (hd : d.isDigit = false) :
    (c == d) = false := by
  cases h : c == d with
  | false => rfl
  | true =>
    rw [beq_iff_eq] at h
    subst h
    rw [hc] at hd
    exact absurd hd (by simp)

theorem isDigit_pyWs_false {c : Char} (hc : c.isDigit = true) : pyWs c = false := by
  unfold pyWs
  rw [isDigit_beq_false hc (by decide), isDigit_beq_false hc (by decide),
    isDigit_beq_false hc (by decide), isDigit_beq_false hc (by decide),
    isDigit_beq_false hc (by decide), isDigit_beq_false hc (by decide)]
  rfl

theorem dropWhile_pyWs_digits {cs : List Char} (h : allDigits cs = true) :
    cs.dropWhile pyWs = cs := by
  cases cs with
  | nil => rfl
  | cons c cs' =>
    have hc : c.isDigit = true := by
      simp only [allDigits, List.all_cons, Bool.and_eq_true] at h
      exact h.1
    rw [List.dropWhile_cons, isDigit_pyWs_false hc]
    simp

theorem allDigits_reverse {cs : List Char} (h : allDigits cs = true) :
    allDigits cs.reverse = true := by
  simpa [allDigits] using h

theorem stripChars_digits {cs : List Char} (h : allDigits cs = true) :
    stripChars cs = cs := by
  unfold stripChars
  rw [dropWhile_pyWs_digits h, dropWhile_pyWs_digits (allDigits_reverse h),
    List.reverse_reverse]

theorem splitAtChar_none {p : Char → Bool} {cs : List Char}
    (h : ∀ c ∈ cs, p c = false) : splitAtChar p cs = (cs, none) := by
  induction cs with
  | nil => rfl
  | cons c cs' ih =>
    unfold splitAtChar
    rw [h c (List.mem_cons_self c cs')]
    simp [ih (fun d hd => h d (List.mem_cons_of_mem c hd))]

theorem pyFloatBody_digits {cs : List Char} (hne : cs ≠ []) (h : allDigits cs = true) :
    pyFloatBody cs = some ((digitsVal cs : ℚ)) := by
  have hdig : ∀ c ∈ cs, c.isDigit = true := by
    simpa [allDigits, List.all_eq_true] using h
  have he : splitAtChar (fun d => d == 'e' || d == 'E') cs = (cs, none) :=
    splitAtChar_none (fun c hc => by
      show (c == 'e' || c == 'E') = false
      rw [isDigit_beq_false (hdig c hc) (by decide), isDigit_beq_false (hdig c hc) (by decide)]
      rfl)
  have hdot : splitAtChar (fun d => d == '.') cs = (cs, none) :=
    splitAtChar_none (fun c hc => by
      show (c == '.') = false
      exact isDigit_beq_false (hdig c hc) (by decide))
  simp only [pyFloatBody, he, parseMantissa, hdot]
  simp [h, hne]

theorem pyFloatChars_digits {cs : List Char} (hne : cs ≠ []) (h : allDigits cs = true) :
    pyFloatChars cs = some ((digitsVal cs : ℚ)) := by
  have hdig : ∀ c ∈ cs, c.isDigit = true := by
    simpa [allDigits, List.all_eq_true] using h
  have hbody := pyFloatBody_digits hne h
  simp only [pyFloatChars, stripChars_digits h]
  cases cs with
  | nil => exact absurd rfl hne
  | cons c rest =>
    have hc : c.isDigit = true := hdig c (List.mem_cons_self c rest)
    split
    · simp_all
    · rename_i heq
      rw [List.cons.injEq] at heq
      have hcm : c = '-' := heq.1
      subst hcm
      exact absurd hc (by decide)
    · rename_i heq
      rw [List.cons.injEq] at heq
      have hcp : c = '+' := heq.1
      subst hcp
      exact absurd hc (by decide)
    · exact hbody

theorem capMultiplier_digit {c : Char} (hc : c.isDigit = true) :
    SectorAnalyzer.capMultiplier (some c) = 1 := by
  unfold SectorAnalyzer.capMultiplier
  split
  · rename_i heq
    rw [Option.some.injEq] at heq
    subst heq
    exact absurd hc (by decide)
  · rename_i heq
    rw [Option.some.injEq] at heq
    subst heq
    exact absurd hc (by decide)
  · rename_i heq
    rw [Option.some.injEq] at heq
    subst heq
    exact absurd hc (by decide)
  · rfl

/-! Claim theorems. -/

/-- C1: for every empty record sequence, sector aggregation fails with
`EmptyBatchError` rather than returning a summary or any other outcome, while
every nonempty batch yields a summary. -/
theorem c1_empty_batch_error (now sectorName : String)
    (stocks : List SectorAnalyzer.StockData) :
    (stocks = [] →
      SectorAnalyzer.analyzeSector now sectorName stocks =
        Except.error SectorAnalyzer.AnalyzeError.emptyBatchError)
    ∧ (stocks ≠ [] →
      ∃ d, SectorAnalyzer.analyzeSector now sectorName stocks = Except.ok d) := by
  constructor
  · intro h
    subst h
    rfl
  · intro h
    cases stocks with
    | nil => exact absurd rfl h
    | cons x xs => exact ⟨_, rfl⟩

/-- Witness for C1 at concrete inputs: the empty batch errors, a one-record
batch succeeds. -/
theorem c1_witness :
    SectorAnalyzer.analyzeSector "2024" "technology" [] =
      Except.error SectorAnalyzer.AnalyzeError.emptyBatchError
    ∧ ∃ d, SectorAnalyzer.analyzeSector "2024" "technology" [sampleStock] = Except.ok d :=
  ⟨(c1_empty_batch_error "2024" "technology" []).1 rfl,
   (c1_empty_batch_error "2024" "technology" [sampleStock]).2 (by simp)⟩

/-- Counterexample to C2: on a single-record batch the summary's volatility is
NaN (the pandas sample standard deviation of one value), not 0. -/
theorem c2_counterexample :
    (SectorAnalyzer.analyzeSector "2024" "technology" [sampleStock]).toOption.map
      SectorAnalyzer.SectorData.volatility = some StdVal.nan
    ∧ StdVal.nan ≠ StdVal.sqrtOf 0 := by
  constructor
  · rfl
  · simp

/-- C2 as amended: for every single-record batch the summary's volatility
field is NaN, never 0. -/
theorem c2_amended_volatility_nan (now sectorName : String) (r : SectorAnalyzer.StockData) :
    (SectorAnalyzer.analyzeSector now sectorName [r]).toOption.map
      SectorAnalyzer.SectorData.volatility = some StdVal.nan := by
  have hstd : mfStd [r.change_percentage] = StdVal.nan := by
    cases r.change_percentage <;> rfl
  simp [SectorAnalyzer.analyzeSector, Except.toOption, hstd]

/-- Counterexample to C3: the plain numeric string "1234" is not returned
unscaled; the code first strips the final character and yields 123.0. -/
theorem c3_counterexample :
    SectorAnalyzer.convertMarketCap "1234" = 123 ∧ (123 : ℚ) ≠ 1234 := by
  constructor
  · simp +decide [SectorAnalyzer.convertMarketCap, SectorAnalyzer.capMultiplier, pyFloatChars,
      pyFloatBody, stripChars, splitAtChar, parseMantissa, parseExpPart, digitsVal, allDigits,
      pyWs, List.dropWhile]
  · norm_num

/-- C3 as amended: on a digit-only string the multiplier is 1, but the value
parsed is the numeral with its final character stripped, so "1234" gives
123.0, not 1234.0. -/
theorem c3_amended_strips_last (s : String) (h1 : s.toList ≠ [])
    (h2 : allDigits s.toList = true) :
    SectorAnalyzer.convertMarketCap s = ((digitsVal s.toList.dropLast : ℕ) : ℚ) := by
  unfold SectorAnalyzer.convertMarketCap
  have hsub : allDigits s.toList.dropLast = true := by
    simp only [allDigits, List.all_eq_true] at h2 ⊢
    exact fun x hx => h2 x ((List.dropLast_sublist s.toList).subset hx)
  rcases hlast : s.toList.getLast? with _ | c
  · rw [List.getLast?_eq_none_iff] at hlast
    exact absurd hlast h1
  · have hcmem : c ∈ s.toList := List.mem_of_getLast?_eq_some hlast
    have hcd : c.isDigit = true := by
      simp only [allDigits, List.all_eq_true] at h2
      exact h2 c hcmem
    by_cases hdl : s.toList.dropLast = []
    · rw [hdl]
      simp [pyFloatChars, stripChars, digitsVal]
    · simp only [pyFloatChars_digits hdl hsub, capMultiplier_digit hcd, mul_one]

/-- Witness for C3 as amended at the concrete input "1234". -/
theorem c3_witness :
    SectorAnalyzer.convertMarketCap "1234" = ((digitsVal "1234".toList.dropLast : ℕ) : ℚ) :=
  c3_amended_strips_last "1234" (by decide) (by decide)

/-- Counterexample to C5: on the empty record list the category summary has no
`top_movers` key at all (the code returns just `{"count": 0}`), rather than an
empty `top_movers` sequence. -/
theorem c5_counterexample :
    (StockAnalyzer.prepareCategoryData []).top_movers = none
    ∧ (none : Option (List StockAnalyzer.TopMover)) ≠ some [] :=
  ⟨rfl, by simp⟩

/-- C5 as amended: category aggregation of the empty list raises no error and
returns a summary holding only `count = 0`; the average, total volume and
`top_movers` entries are absent rather than zero or empty. -/
theorem c5_amended_count_only :
    StockAnalyzer.prepareCategoryData [] =
      { count := 0, avg_change_pct := none, total_volume := none, top_movers := none }
    ∧ (StockAnalyzer.prepareCategoryData []).count = 0 :=
  ⟨rfl, rfl⟩

/-- C8: the five pinned market-cap parses — "1.5T", "500B", "250M", "garbage"
and "" — evaluate to 1.5e12, 5e11, 2.5e8, 0 and 0 respectively. -/
theorem c8_market_cap_examples :
    SectorAnalyzer.convertMarketCap "1.5T" = (1.5e12 : ℚ)
    ∧ SectorAnalyzer.convertMarketCap "500B" = (5e11 : ℚ)
    ∧ SectorAnalyzer.convertMarketCap "250M" = (2.5e8 : ℚ)
    ∧ SectorAnalyzer.convertMarketCap "garbage" = 0
    ∧ SectorAnalyzer.convertMarketCap "" = 0 := by
  refine ⟨?_, ?_, ?_, ?_, ?_⟩
  all_goals
    simp +decide [SectorAnalyzer.convertMarketCap, SectorAnalyzer.capMultiplier, pyFloatChars,
      pyFloatBody, stripChars, splitAtChar, parseMantissa, parseExpPart, digitsVal, allDigits,
      pyWs, List.dropWhile]
  all_goals norm_num

/-- Counterexample to C4: with the mapping iterated as B, A, C and performances
{A: 3.0, B: 3.0, C: 1.0}, the report order is [B, A, C] — the tie between A and
B is broken by the mapping's iteration order, not by name. -/
theorem c4_counterexample :
    (SectorAnalyzer.sortedSectorItems
      [("B", mkSectorSummary "B" (MFloat.val 3)), ("A", mkSectorSummary "A" (MFloat.val 3)),
       ("C", mkSectorSummary "C" (MFloat.val 1))]).map Prod.fst = ["B", "A", "C"]
    ∧ (["B", "A", "C"] : List String) ≠ ["A", "B", "C"] := by
  constructor
  · decide
  · simp

/-- Counterexample to C6: with distinct keys 1, 2, 3 and n = 2, topN is [3, 2]
while the reverse of bottomN is [2, 1], so the reversal identity fails for
n smaller than the batch. -/
theorem c6_counterexample :
    nlargestBy (fun q : MFloat => q) 2 [MFloat.val 1, MFloat.val 2, MFloat.val 3] =
      [MFloat.val 3, MFloat.val 2]
    ∧ nlargestBy (fun q : MFloat => q) 2 [MFloat.val 1, MFloat.val 2, MFloat.val 3] ≠
      (nsmallestBy (fun q : MFloat => q) 2 [MFloat.val 1, MFloat.val 2, MFloat.val 3]).reverse := by
  constructor
  · decide
  · decide

/-- Counterexample to C9: in a one-record batch whose record has NaN
change_percentage, that record appears in both top_performers and
worst_performers (pandas pads the short selection with the NaN rows), so it
does not vanish from the ranking lists. -/
theorem c9_counterexample :
    nanStock.change_percentage = MFloat.nan
    ∧ SectorAnalyzer.toPerformer nanStock ∈ SectorAnalyzer.getTopPerformers [nanStock] 5
    ∧ SectorAnalyzer.toPerformer nanStock ∈ SectorAnalyzer.getWorstPerformers [nanStock] 5 := by
  refine ⟨rfl, ?_, ?_⟩ <;> decide

/-- C10: the market-trend analysis table has exactly the categories
most_active, gainers, losers in that fixed order; a mapping entry under any
other key never changes the result; and a missing category is read as the
empty list (count 0), not an error. -/
theorem c10_fixed_categories (m : List (String × List StockAnalyzer.StockData)) :
    (StockAnalyzer.analysisData m).map Prod.fst = ["most_active", "gainers", "losers"]
    ∧ (∀ k v, (k == "most_active") = false → (k == "gainers") = false →
        (k == "losers") = false →
        StockAnalyzer.analysisData ((k, v) :: m) = StockAnalyzer.analysisData m)
    ∧ (m.find? (fun p => p.1 == "losers") = none →
        (StockAnalyzer.analysisData m)[2]? =
          some ("losers", StockAnalyzer.prepareCategoryData [])) := by
  refine ⟨rfl, ?_, ?_⟩
  · intro k v h1 h2 h3
    simp [StockAnalyzer.analysisData, StockAnalyzer.dictGet, List.find?_cons, h1, h2, h3]
  · intro h
    simp [StockAnalyzer.analysisData, StockAnalyzer.dictGet, h]

/-- Witness for C10 at a concrete mapping with an extra key and no losers
entry. -/
theorem c10_witness :
    (StockAnalyzer.analysisData [("extra", [mkCategoryStock "X" 1])]).map Prod.fst =
      ["most_active", "gainers", "losers"]
    ∧ StockAnalyzer.analysisData [("extra", [mkCategoryStock "X" 1])] =
      StockAnalyzer.analysisData []
    ∧ (StockAnalyzer.analysisData [("extra", [mkCategoryStock "X" 1])])[2]? =
      some ("losers", StockAnalyzer.prepareCategoryData []) := by
  obtain ⟨h1, h2, h3⟩ := c10_fixed_categories [("extra", [mkCategoryStock "X" 1])]
  exact ⟨h1, h2 "extra" [mkCategoryStock "X" 1] (by decide) (by decide) (by decide),
    h3 (by decide)⟩

/-! Further comparison and ranking lemmas, used by the remaining claims. -/

theorem mfLt_irrefl (a : MFloat) : mfLt a a = false := by
  cases a with
  | nan => rfl
  | val q => simp [mfLt]

theorem mfLt_ne {a b : MFloat} (h : mfLt a b = true) : a ≠ b := by
  intro he
  subst he
  rw [mfLt_irrefl a] at h
  exact Bool.false_ne_true h

/-- A stable descending sort whose comparator is asymmetric, transitive and
total on the (pairwise distinct) elements of the list is strictly sorted. -/
theorem sortTop_pairwise_strict_of {α : Type*} {lt : α → α → Bool} {l : List α}
    (hA : ∀ a b, lt a b = true → lt b a = false)
    (hT : ∀ a b c, lt a b = true → lt b c = true → lt a c = true)
    (hNodup : l.Nodup)
    (hTot : ∀ a b, a ∈ l → b ∈ l → a ≠ b → lt a b = false → lt b a = true) :
    (sortTop lt l).Pairwise (fun a b => lt b a = true) := by
  have hperm : (sortTop lt l).Perm l := sortTop_perm lt l
  have hC : (sortTop lt l).Chain' (fun a b => lt a b = false) := sortTop_chain' hA l
  have hNd : (sortTop lt l).Nodup := hperm.nodup_iff.mpr hNodup
  have hNe : (sortTop lt l).Chain' (fun a b => a ≠ b) := List.Pairwise.chain' hNd
  have hCombined := chain'_and_of hC hNe
  have hStrict : (sortTop lt l).Chain' (fun a b => lt b a = true) := by
    refine chain'_imp_mem hCombined ?_
    intro a b ha hb hab
    exact hTot a b (hperm.subset ha) (hperm.subset hb) hab.2 hab.1
  refine pairwise_of_chain'_trans_mem ?_ hStrict
  intro a b c _ _ _ h1 h2
  exact hT c b a h2 h1

/-- Splitting a column filter along the NaN partition of the rows. -/
theorem filter_key_split {α : Type*} (key : α → MFloat) (q : MFloat) (l : List α) :
    (l.filter (fun a => !(key a).isNan)).filter (fun r => key r == q)
      ++ (l.filter (fun a => (key a).isNan)).filter (fun r => key r == q)
    = l.filter (fun r => key r == q) := by
  rw [List.filter_filter, List.filter_filter]
  cases q with
  | nan =>
    have h1 : l.filter (fun a => (key a == MFloat.nan) && !(key a).isNan) = [] := by
      rw [List.filter_eq_nil_iff]
      intro a _
      cases h : key a <;> simp [h, MFloat.isNan]
    have h2 : l.filter (fun a => (key a == MFloat.nan) && (key a).isNan) =
        l.filter (fun a => key a == MFloat.nan) := by
      apply List.filter_congr
      intro a _
      cases h : key a <;> simp [h, MFloat.isNan]
    rw [h1, h2, List.nil_append]
  | val v =>
    have h1 : l.filter (fun a => (key a == MFloat.val v) && !(key a).isNan) =
        l.filter (fun a => key a == MFloat.val v) := by
      apply List.filter_congr
      intro a _
      cases h : key a <;> simp [h, MFloat.isNan]
    have h2 : l.filter (fun a => (key a == MFloat.val v) && (key a).isNan) = [] := by
      rw [List.filter_eq_nil_iff]
      intro a _
      cases h : key a <;> simp [h, MFloat.isNan]
    rw [h1, h2, List.append_nil]

/-- Key-equality filters are preserved through the descending ranking: the
tied rows of `nlargestBy` are a subsequence of the tied input rows. -/
theorem nlargestBy_stable {α : Type*} (key : α → MFloat) (n : Nat) (l : List α)
    (q : MFloat) :
    ((nlargestBy key n l).filter (fun r => key r == q)).Sublist
      (l.filter (fun r => key r == q)) := by
  unfold nlargestBy
  have hp : ∀ x y, mfLt (key x) (key y) = true → (key x == q) = true → (key y == q) = false := by
    intro x y hxy hx
    rw [beq_iff_eq] at hx
    cases hyq : key y == q with
    | false => rfl
    | true =>
      rw [beq_iff_eq] at hyq
      rw [hx, hyq] at hxy
      exact absurd (mfLt_ne hxy) (by simp)
  have h1 := (List.take_sublist n
    (sortTop (fun a b => mfLt (key a) (key b)) (l.filter (fun a => !(key a).isNan))
      ++ l.filter (fun a => (key a).isNan))).filter (fun r => key r == q)
  rw [List.filter_append, filter_sortTop hp, filter_key_split key q l] at h1
  exact h1

/-- Key-equality filters are preserved through the ascending ranking as well. -/
theorem nsmallestBy_stable {α : Type*} (key : α → MFloat) (n : Nat) (l : List α)
    (q : MFloat) :
    ((nsmallestBy key n l).filter (fun r => key r == q)).Sublist
      (l.filter (fun r => key r == q)) := by
  unfold nsmallestBy
  have hp : ∀ x y, mfLt (key y) (key x) = true → (key x == q) = true → (key y == q) = false := by
    intro x y hxy hx
    rw [beq_iff_eq] at hx
    cases hyq : key y == q with
    | false => rfl
    | true =>
      rw [beq_iff_eq] at hyq
      rw [hx, hyq] at hxy
      exact absurd (mfLt_ne hxy) (by simp)
  have h1 := (List.take_sublist n
    (sortTop (fun a b => mfLt (key b) (key a)) (l.filter (fun a => !(key a).isNan))
      ++ l.filter (fun a => (key a).isNan))).filter (fun r => key r == q)
  rw [List.filter_append, filter_sortTop hp, filter_key_split key q l] at h1
  exact h1

/-- When at least `n` rows have a non-NaN key, every row selected by
`nlargestBy` has a non-NaN key. -/
theorem mem_nlargestBy_not_nan {α : Type*} {key : α → MFloat} {n : Nat} {l : List α}
    (hn : n ≤ (l.filter (fun a => !(key a).isNan)).length) {x : α}
    (hx : x ∈ nlargestBy key n l) : (key x).isNan = false := by
  unfold nlargestBy at hx
  rw [List.take_append_of_le_length (by rw [sortTop_length]; exact hn)] at hx
  have hx2 : x ∈ l.filter (fun a => !(key a).isNan) :=
    (sortTop_perm _ _).subset ((List.take_sublist n _).subset hx)
  simpa using (List.mem_filter.mp hx2).2

/-- When at least `n` rows have a non-NaN key, every row selected by
`nsmallestBy` has a non-NaN key. -/
theorem mem_nsmallestBy_not_nan {α : Type*} {key : α → MFloat} {n : Nat} {l : List α}
    (hn : n ≤ (l.filter (fun a => !(key a).isNan)).length) {x : α}
    (hx : x ∈ nsmallestBy key n l) : (key x).isNan = false := by
  unfold nsmallestBy at hx
  rw [List.take_append_of_le_length (by rw [sortTop_length]; exact hn)] at hx
  have hx2 : x ∈ l.filter (fun a => !(key a).isNan) :=
    (sortTop_perm _ _).subset ((List.take_sublist n _).subset hx)
  simpa using (List.mem_filter.mp hx2).2

/-- C4 as amended: the sector report ordering sorts by performance descending,
but ties keep the input mapping's iteration order (Python's stable sort), not
name-ascending order.  For summaries with non-NaN performance the output is a
permutation of the input, pairwise non-ascending in performance, and every
group of tied sectors appears exactly in input order. -/
theorem c4_amended_insertion_order_ties (l : List (String × SectorAnalyzer.SectorData))
    (hnn : ∀ x ∈ l, x.2.performance.isNan = false) :
    (SectorAnalyzer.sortedSectorItems l).Perm l
    ∧ (SectorAnalyzer.sortedSectorItems l).Pairwise
        (fun a b => mfLt a.2.performance b.2.performance = false)
    ∧ ∀ q : MFloat, (SectorAnalyzer.sortedSectorItems l).filter
        (fun x => x.2.performance == q) = l.filter (fun x => x.2.performance == q) := by
  have hperm : (SectorAnalyzer.sortedSectorItems l).Perm l := sortTop_perm _ l
  refine ⟨hperm, ?_, ?_⟩
  · have hC : (SectorAnalyzer.sortedSectorItems l).Chain'
        (fun a b => mfLt a.2.performance b.2.performance = false) :=
      sortTop_chain' (fun a b h => mfLt_asymm h) l
    refine pairwise_of_chain'_trans_mem ?_ hC
    intro a b c ha hb hc h1 h2
    exact mfLt_false_trans (hnn a (hperm.subset ha)) (hnn b (hperm.subset hb))
      (hnn c (hperm.subset hc)) h1 h2
  · intro q
    refine filter_sortTop ?_ l
    intro x y hxy hx
    rw [beq_iff_eq] at hx
    cases hyq : y.2.performance == q with
    | false => rfl
    | true =>
      rw [beq_iff_eq] at hyq
      rw [hx, hyq] at hxy
      exact absurd (mfLt_ne hxy) (by simp)

/-- Witness for C4 as amended at a concrete three-sector mapping. -/
theorem c4_witness :
    (∀ x ∈ [("B", mkSectorSummary "B" (MFloat.val 3)),
            ("A", mkSectorSummary "A" (MFloat.val 3)),
            ("C", mkSectorSummary "C" (MFloat.val 1))], x.2.performance.isNan = false)
    ∧ (SectorAnalyzer.sortedSectorItems
        [("B", mkSectorSummary "B" (MFloat.val 3)),
         ("A", mkSectorSummary "A" (MFloat.val 3)),
         ("C", mkSectorSummary "C" (MFloat.val 1))]).Perm
        [("B", mkSectorSummary "B" (MFloat.val 3)),
         ("A", mkSectorSummary "A" (MFloat.val 3)),
         ("C", mkSectorSummary "C" (MFloat.val 1))] :=
  ⟨by decide,
   (c4_amended_insertion_order_ties
     [("B", mkSectorSummary "B" (MFloat.val 3)),
      ("A", mkSectorSummary "A" (MFloat.val 3)),
      ("C", mkSectorSummary "C" (MFloat.val 1))] (by decide)).1⟩

/-- C9 as amended: NaN-keyed records vanish from the ranking lists only when at
least `n` records have a non-NaN change_percentage; under that condition every
selected row is non-NaN and a NaN record's projection appears in neither list.
(The counterexample shows NaN rows are otherwise appended, not dropped.) -/
theorem c9_amended_nan_excluded (stocks : List SectorAnalyzer.StockData)
    (r : SectorAnalyzer.StockData) (n : Nat)
    (hr : r.change_percentage = MFloat.nan)
    (hn : n ≤ (stocks.filter (fun s => !s.change_percentage.isNan)).length) :
    (∀ m ∈ SectorAnalyzer.getTopPerformers stocks n, m.change_percentage.isNan = false)
    ∧ (∀ m ∈ SectorAnalyzer.getWorstPerformers stocks n, m.change_percentage.isNan = false)
    ∧ SectorAnalyzer.toPerformer r ∉ SectorAnalyzer.getTopPerformers stocks n
    ∧ SectorAnalyzer.toPerformer r ∉ SectorAnalyzer.getWorstPerformers stocks n := by
  have htop : ∀ m ∈ SectorAnalyzer.getTopPerformers stocks n,
      m.change_percentage.isNan = false := by
    intro m hm
    unfold SectorAnalyzer.getTopPerformers at hm
    rcases List.mem_map.mp hm with ⟨s, hs, rfl⟩
    exact mem_nlargestBy_not_nan hn hs
  have hworst : ∀ m ∈ SectorAnalyzer.getWorstPerformers stocks n,
      m.change_percentage.isNan = false := by
    intro m hm
    unfold SectorAnalyzer.getWorstPerformers at hm
    rcases List.mem_map.mp hm with ⟨s, hs, rfl⟩
    exact mem_nsmallestBy_not_nan hn hs
  refine ⟨htop, hworst, ?_, ?_⟩
  · intro hmem
    have hfalse := htop _ hmem
    rw [show (SectorAnalyzer.toPerformer r).change_percentage = r.change_percentage from rfl,
      hr] at hfalse
    exact absurd hfalse (by simp [MFloat.isNan])
  · intro hmem
    have hfalse := hworst _ hmem
    rw [show (SectorAnalyzer.toPerformer r).change_percentage = r.change_percentage from rfl,
      hr] at hfalse
    exact absurd hfalse (by simp [MFloat.isNan])

/-- Witness for C9 as amended: in a batch with one valid and one NaN record and
n = 1, the NaN record's projection is excluded from both lists. -/
theorem c9_witness :
    (∀ m ∈ SectorAnalyzer.getTopPerformers [sampleStock, nanStock] 1,
        m.change_percentage.isNan = false)
    ∧ (∀ m ∈ SectorAnalyzer.getWorstPerformers [sampleStock, nanStock] 1,
        m.change_percentage.isNan = false)
    ∧ SectorAnalyzer.toPerformer nanStock ∉
        SectorAnalyzer.getTopPerformers [sampleStock, nanStock] 1
    ∧ SectorAnalyzer.toPerformer nanStock ∉
        SectorAnalyzer.getWorstPerformers [sampleStock, nanStock] 1 :=
  c9_amended_nan_excluded [sampleStock, nanStock] nanStock 1 rfl (by decide)

/-- C6 as amended: the reversal identity `topN = reverse bottomN` holds for
duplicate-free, NaN-free keys once `n` covers the whole batch (the
counterexample shows it fails for smaller `n`, where the two selections hold
different rows); and unconditionally, both rankings preserve the original
relative order among tied records — every key-equality filter of a ranking is
a subsequence of the same filter of the input. -/
theorem c6_amended_reverse_and_stability {α : Type*} (key : α → MFloat)
    (records : List α) (n : Nat) :
    ((records.map key).Nodup → (∀ r ∈ records, (key r).isNan = false) →
      records.length ≤ n →
      nlargestBy key n records = (nsmallestBy key n records).reverse)
    ∧ (∀ q : MFloat, ((nlargestBy key n records).filter (fun r => key r == q)).Sublist
        (records.filter (fun r => key r == q)))
    ∧ (∀ q : MFloat, ((nsmallestBy key n records).filter (fun r => key r == q)).Sublist
        (records.filter (fun r => key r == q))) := by
  refine ⟨?_, fun q => nlargestBy_stable key n records q,
    fun q => nsmallestBy_stable key n records q⟩
  intro hnd hnn hn
  have hV : records.filter (fun a => !(key a).isNan) = records :=
    List.filter_eq_self.mpr (fun a ha => by simp [hnn a ha])
  have hW : records.filter (fun a => (key a).isNan) = [] :=
    List.filter_eq_nil_iff.mpr (fun a ha => by simp [hnn a ha])
  unfold nlargestBy nsmallestBy
  rw [hV, hW, List.append_nil, List.append_nil,
    List.take_of_length_le (by rw [sortTop_length]; exact hn),
    List.take_of_length_le (by rw [sortTop_length]; exact hn)]
  have hInj := List.inj_on_of_nodup_map hnd
  have hNodupRec : records.Nodup := List.Nodup.of_map key hnd
  have hdesc : (sortTop (fun a b => mfLt (key a) (key b)) records).Pairwise
      (fun a b => mfLt (key b) (key a) = true) := by
    refine sortTop_pairwise_strict_of (fun a b h => mfLt_asymm h)
      (fun a b c h1 h2 => mfLt_trans h1 h2) hNodupRec ?_
    intro a b ha hb hab hf
    refine mfLt_of_not_lt (hnn a ha) (hnn b hb) ?_ hf
    intro hk
    exact hab (hInj ha hb hk)
  have hasc : (sortTop (fun a b => mfLt (key b) (key a)) records).Pairwise
      (fun a b => mfLt (key a) (key b) = true) := by
    refine sortTop_pairwise_strict_of (fun a b h => mfLt_asymm h)
      (fun a b c h1 h2 => mfLt_trans h2 h1) hNodupRec ?_
    intro a b ha hb hab hf
    refine mfLt_of_not_lt (hnn b hb) (hnn a ha) ?_ hf
    intro hk
    exact hab (hInj hb ha hk).symm
  have hrev : ((sortTop (fun a b => mfLt (key b) (key a)) records).reverse).Pairwise
      (fun a b => mfLt (key b) (key a) = true) := by
    rw [List.pairwise_reverse]
    exact hasc
  have hpermEq : (sortTop (fun a b => mfLt (key a) (key b)) records).Perm
      ((sortTop (fun a b => mfLt (key b) (key a)) records).reverse) :=
    (sortTop_perm _ _).trans ((sortTop_perm _ _).symm.trans (List.reverse_perm _).symm)
  letI : IsAntisymm α (fun a b => mfLt (key b) (key a) = true) :=
    ⟨fun a b h1 h2 => absurd h2 (by simp [mfLt_asymm h1])⟩
  exact List.eq_of_perm_of_sorted hpermEq hdesc hrev

/-- Witness for C6 as amended: with distinct keys 1, 2, 3 and n = 3 the
reversal identity holds, and the stability inclusions hold at this input. -/
theorem c6_witness :
    nlargestBy (fun q : MFloat => q) 3 [MFloat.val 1, MFloat.val 2, MFloat.val 3] =
      (nsmallestBy (fun q : MFloat => q) 3 [MFloat.val 1, MFloat.val 2, MFloat.val 3]).reverse
    ∧ (∀ q : MFloat,
        ((nlargestBy (fun q : MFloat => q) 3 [MFloat.val 1, MFloat.val 2, MFloat.val 3]).filter
          (fun r => r == q)).Sublist
          ([MFloat.val 1, MFloat.val 2, MFloat.val 3].filter (fun r => r == q))) := by
  obtain ⟨h1, h2, _⟩ := c6_amended_reverse_and_stability (fun q : MFloat => q)
    [MFloat.val 1, MFloat.val 2, MFloat.val 3] 3
  exact ⟨h1 (by decide) (by decide) (by decide), h2⟩

/-- C7: for every non-empty record list, top_movers is the 5-element (or
shorter) selection ranked by absolute change_percentage descending, with ties
kept stably in input order, each projected entry taken from a source record
with its signed change preserved, and no unselected record has a larger
absolute change than any selected one. -/
theorem c7_top_movers (stocks : List StockAnalyzer.StockData) (h : stocks ≠ []) :
    ∃ tm, (StockAnalyzer.prepareCategoryData stocks).top_movers = some tm
      ∧ tm.length = min 5 stocks.length
      ∧ tm.Pairwise (fun a b => |b.change_pct| ≤ |a.change_pct|)
      ∧ (∀ m ∈ tm, ∃ r ∈ stocks, StockAnalyzer.toTopMover r = m)
      ∧ (∃ sel rest, stocks.Perm (sel ++ rest)
          ∧ tm = sel.map StockAnalyzer.toTopMover
          ∧ ∀ a ∈ sel, ∀ b ∈ rest, |b.change_percentage| ≤ |a.change_percentage|)
      ∧ (∀ q : ℚ, ((tm.filter (fun m => |m.change_pct| == q))).Sublist
          ((stocks.map StockAnalyzer.toTopMover).filter (fun m => |m.change_pct| == q))) := by
  have hne : stocks.isEmpty = false := by
    cases stocks with
    | nil => exact absurd rfl h
    | cons a as => rfl
  have hperm : (sortTop (fun a b : StockAnalyzer.StockData =>
      decide (|a.change_percentage| < |b.change_percentage|)) stocks).Perm stocks :=
    sortTop_perm _ stocks
  have hA : ∀ a b : StockAnalyzer.StockData,
      decide (|a.change_percentage| < |b.change_percentage|) = true →
      decide (|b.change_percentage| < |a.change_percentage|) = false := by
    intro a b hab
    simp only [decide_eq_true_eq] at hab
    simp only [decide_eq_false_iff_not]
    exact asymm hab
  have hP : (sortTop (fun a b : StockAnalyzer.StockData =>
      decide (|a.change_percentage| < |b.change_percentage|)) stocks).Pairwise
      (fun a b => decide (|a.change_percentage| < |b.change_percentage|) = false) := by
    refine pairwise_of_chain'_trans_mem ?_ (sortTop_chain' hA stocks)
    intro a b c _ _ _ h1 h2
    simp only [decide_eq_false_iff_not] at h1 h2 ⊢
    intro hlt
    exact h1 (lt_of_lt_of_le hlt (le_of_not_lt h2))
  refine ⟨((sortTop (fun a b : StockAnalyzer.StockData =>
      decide (|a.change_percentage| < |b.change_percentage|)) stocks).take 5).map
      StockAnalyzer.toTopMover, ?_, ?_, ?_, ?_, ?_, ?_⟩
  · simp [StockAnalyzer.prepareCategoryData, hne]
  · rw [List.length_map, List.length_take, sortTop_length]
  · rw [List.pairwise_map]
    refine (List.Pairwise.sublist (List.take_sublist 5 _) hP).imp ?_
    intro a b hab
    exact le_of_not_lt (by simpa using hab)
  · intro m hm
    rcases List.mem_map.mp hm with ⟨r, hr, rfl⟩
    exact ⟨r, hperm.subset ((List.take_sublist 5 _).subset hr), rfl⟩
  · refine ⟨(sortTop (fun a b : StockAnalyzer.StockData =>
        decide (|a.change_percentage| < |b.change_percentage|)) stocks).take 5,
      (sortTop (fun a b : StockAnalyzer.StockData =>
        decide (|a.change_percentage| < |b.change_percentage|)) stocks).drop 5,
      ?_, rfl, ?_⟩
    · rw [List.take_append_drop]
      exact hperm.symm
    · intro a ha b hb
      have hP' : ((sortTop (fun a b : StockAnalyzer.StockData =>
          decide (|a.change_percentage| < |b.change_percentage|)) stocks).take 5
          ++ (sortTop (fun a b : StockAnalyzer.StockData =>
          decide (|a.change_percentage| < |b.change_percentage|)) stocks).drop 5).Pairwise
          (fun a b => decide (|a.change_percentage| < |b.change_percentage|) = false) := by
        rw [List.take_append_drop]
        exact hP
      have hcross := (List.pairwise_append.mp hP').2.2 a ha b hb
      exact le_of_not_lt (by simpa using hcross)
  · intro q
    have hp : ∀ x y : StockAnalyzer.StockData,
        decide (|x.change_percentage| < |y.change_percentage|) = true →
        ((|x.change_percentage| : ℚ) == q) = true →
        ((|y.change_percentage| : ℚ) == q) = false := by
      intro x y hxy hx
      rw [beq_iff_eq] at hx
      simp only [decide_eq_true_eq] at hxy
      cases hyq : (|y.change_percentage| : ℚ) == q with
      | false => rfl
      | true =>
        rw [beq_iff_eq] at hyq
        rw [hx, hyq] at hxy
        exact absurd hxy (lt_irrefl q)
    have h1 := (List.take_sublist 5 (sortTop (fun a b : StockAnalyzer.StockData =>
        decide (|a.change_percentage| < |b.change_percentage|)) stocks)).filter
        (fun s => (|s.change_percentage| : ℚ) == q)
    rw [filter_sortTop hp] at h1
    have e1 : (((sortTop (fun a b : StockAnalyzer.StockData =>
        decide (|a.change_percentage| < |b.change_percentage|)) stocks).take 5).map
        StockAnalyzer.toTopMover).filter (fun m => |m.change_pct| == q)
        = (((sortTop (fun a b : StockAnalyzer.StockData =>
        decide (|a.change_percentage| < |b.change_percentage|)) stocks).take 5).filter
        (fun s => (|s.change_percentage| : ℚ) == q)).map StockAnalyzer.toTopMover := by
      rw [List.filter_map]
      rfl
    have e2 : (stocks.map StockAnalyzer.toTopMover).filter (fun m => |m.change_pct| == q)
        = (stocks.filter (fun s => (|s.change_percentage| : ℚ) == q)).map
          StockAnalyzer.toTopMover := by
      rw [List.filter_map]
      rfl
    rw [e1, e2]
    exact h1.map StockAnalyzer.toTopMover

/-- Witness for C7 at a concrete two-record batch. -/
theorem c7_witness :
    ([mkCategoryStock "A" 2, mkCategoryStock "B" (-3)] : List StockAnalyzer.StockData) ≠ []
    ∧ ∃ tm, (StockAnalyzer.prepareCategoryData
        [mkCategoryStock "A" 2, mkCategoryStock "B" (-3)]).top_movers = some tm
      ∧ tm.length = min 5 ([mkCategoryStock "A" 2, mkCategoryStock "B" (-3)] :
          List StockAnalyzer.StockData).length :=
  ⟨by decide, by
    obtain ⟨tm, h1, h2, _⟩ :=
      c7_top_movers [mkCategoryStock "A" 2, mkCategoryStock "B" (-3)] (by decide)
    exact ⟨tm, h1, h2⟩⟩
